import Mathlib

/-!
Verification development for the free-claude-code gateway.

Shallow embeddings of the core subsystems, translated from the Python
sources:
  - token counting           (src/api/request_utils.py, get_token_count)
  - global rate limiter      (src/providers/rate_limit.py)
  - error mapping            (src/providers/nvidia_mixins.py, ErrorMapperMixin)
  - response conversion      (src/providers/nvidia_mixins.py, ResponseConverterMixin)
  - ingress text validation  (src/api/models/anthropic.py, ContentBlockText)
  - conversation-tree queues (src/messaging/trees/queue_manager.py, repository.py)

Operations of MessageTree and of the TreeQueueProcessor live in modules
that are not part of this extract (src/messaging/trees/data.py,
src/messaging/trees/processor.py); those are modelled from the spec,
as marked on each definition.
-/

/-! ## Token counting — src/api/request_utils.py, get_token_count

The BPE encoder (tiktoken cl100k_base) is kept abstract as a function
`enc : String → Nat`; both the code-side and the spec-side counts are
parameterized by the same encoder.  `json.dumps` results are modelled
as the already-dumped strings carried by the blocks. -/

/-- Content of a tool_result block: either a plain string or any other
JSON value, carried in its `json.dumps` form. -/
inductive TRContent where
  | str (s : String)
  | json (j : String)
deriving DecidableEq, Repr

/-- Content block of a message, as inspected by get_token_count via
`getattr(block, "type", None)`.  Blocks whose type is none of the four
handled ones (notably images) fall through the if/elif chain. -/
inductive TCBlock where
  | text (t : String)
  | thinking (t : String)
  | tool_use (name : String) (inputJson : String)
  | tool_result (content : TRContent)
  | image (base64_data : Option String)
  | other
deriving DecidableEq, Repr

/-- Message content: a string or a list of content blocks. -/
inductive TCContent where
  | str (s : String)
  | blocks (bs : List TCBlock)
deriving DecidableEq, Repr

/-- A message as seen by get_token_count (only `content` is read). -/
structure TCMessage where
  content : TCContent
deriving DecidableEq, Repr

/-- A tool definition: name, optional description, and the
`json.dumps` of its input_schema. -/
structure TCTool where
  name : String
  description : Option String
  input_schema : String
deriving DecidableEq, Repr

/-- The system prompt: a string or a list of text blocks
(each block's `text` attribute). -/
inductive TCSystem where
  | str (s : String)
  | blocks (l : List String)
deriving DecidableEq, Repr

/-- Token count of one content block inside the message loop of
get_token_count: text/thinking encode their text, tool_use encodes
name and dumped input plus 10, tool_result encodes its content plus 5,
anything else (images included) contributes nothing. -/
def tcBlockTokens (enc : String → Nat) : TCBlock → Nat
  | .text t => enc t
  | .thinking t => enc t
  | .tool_use name inputJson => enc name + enc inputJson + 10
  | .tool_result c =>
      (match c with
       | .str s => enc s
       | .json j => enc j) + 5
  | .image _ => 0
  | .other => 0

/-- Token count of a message's content (string or block list). -/
def tcContentTokens (enc : String → Nat) : TCContent → Nat
  | .str s => enc s
  | .blocks bs => (bs.map (tcBlockTokens enc)).sum

/-- Token count of the system prompt, with Python truthiness:
`if system:` skips an empty string and an empty list. -/
def tcSystemTokens (enc : String → Nat) : Option TCSystem → Nat
  | none => 0
  | some (.str s) => if s = "" then 0 else enc s
  | some (.blocks l) => if l = [] then 0 else (l.map enc).sum

/-- Token count of one tool definition:
`tool.name + (tool.description or "") + json.dumps(tool.input_schema)`. -/
def tcToolTokens (enc : String → Nat) (t : TCTool) : Nat :=
  enc (t.name ++ t.description.getD "" ++ t.input_schema)

/-- get_token_count from src/api/request_utils.py: system tokens,
message tokens, tool-definition tokens, then 3 tokens of overhead per
message and (when tools are present) 5 per tool, with a floor of 1. -/
def getTokenCount (enc : String → Nat) (messages : List TCMessage)
    (system : Option TCSystem) (tools : Option (List TCTool)) : Nat :=
  let sysTok := tcSystemTokens enc system
  let msgTok := (messages.map (fun m => tcContentTokens enc m.content)).sum
  let toolTok :=
    match tools with
    | none => 0
    | some ts => if ts = [] then 0 else (ts.map (tcToolTokens enc)).sum
  let msgOverhead := messages.length * 3
  let toolOverhead :=
    match tools with
    | none => 0
    | some ts => if ts = [] then 0 else ts.length * 5
  max 1 (sysTok + msgTok + toolTok + msgOverhead + toolOverhead)

/-- Per-block token cost as the spec sentence states it: +15 per
tool_use, +8 per tool_result, and `max(85, len(base64_data)//3000)`
per image (765 if no data).  Written from the spec's words for
comparison with the code-side count. -/
def claimBlockTokens (enc : String → Nat) : TCBlock → Nat
  | .text t => enc t
  | .thinking t => enc t
  | .tool_use name inputJson => enc name + enc inputJson + 15
  | .tool_result c =>
      (match c with
       | .str s => enc s
       | .json j => enc j) + 8
  | .image d =>
      match d with
      | some b => max 85 (b.length / 3000)
      | none => 765
  | .other => 0

/-- Message-content token count under the spec's per-block table. -/
def claimContentTokens (enc : String → Nat) : TCContent → Nat
  | .str s => enc s
  | .blocks bs => (bs.map (claimBlockTokens enc)).sum

/-- The token count as the claim states it: encoded text plus 4 per
message, +4 for system framing, +5 per tool definition, min 1.
Written from the spec's words for comparison with getTokenCount. -/
def claimTokenCount (enc : String → Nat) (messages : List TCMessage)
    (system : Option TCSystem) (tools : Option (List TCTool)) : Nat :=
  let sysTok :=
    match system with
    | none => 0
    | some (.str s) => enc s + 4
    | some (.blocks l) => (l.map enc).sum + 4
  let msgTok := (messages.map (fun m => claimContentTokens enc m.content + 4)).sum
  let toolTok :=
    match tools with
    | none => 0
    | some ts => (ts.map (fun t => tcToolTokens enc t + 5)).sum
  max 1 (sysTok + msgTok + toolTok)

/-- The token count as the code actually computes it, restated
compositionally: 3 per message, +10 per tool_use, +5 per tool_result,
+5 per tool definition, no image cost, no system framing. -/
def amendedTokenCount (enc : String → Nat) (messages : List TCMessage)
    (system : Option TCSystem) (tools : Option (List TCTool)) : Nat :=
  let sysTok :=
    match system with
    | none => 0
    | some (.str s) => enc s
    | some (.blocks l) => (l.map enc).sum
  let msgTok := (messages.map (fun m => tcContentTokens enc m.content + 3)).sum
  let toolTok :=
    match tools with
    | none => 0
    | some ts => (ts.map (fun t => tcToolTokens enc t + 5)).sum
  max 1 (sysTok + msgTok + toolTok)

/-! ## Global rate limiter — src/providers/rate_limit.py

Wall-clock instants are rationals (Python floats, modelled exactly for
the ordering facts at stake).  The token bucket (aiolimiter) is kept
abstract: `wait_if_blocked` is modelled up to the point where the
bucket acquisition begins. -/

/-- The reactive part of GlobalRateLimiter's state. -/
structure RateLimiterState where
  blocked_until : ℚ
deriving DecidableEq, Repr

/-- set_blocked from src/providers/rate_limit.py:
`self._blocked_until = time.time() + seconds` — a plain overwrite. -/
def setBlocked (st : RateLimiterState) (now seconds : ℚ) : RateLimiterState :=
  { st with blocked_until := now + seconds }

/-- is_blocked: `time.time() < self._blocked_until`. -/
def isBlocked (st : RateLimiterState) (now : ℚ) : Bool :=
  now < st.blocked_until

/-- remaining_wait: `max(0, self._blocked_until - time.time())`. -/
def remainingWait (st : RateLimiterState) (now : ℚ) : ℚ :=
  max 0 (st.blocked_until - now)

/-- wait_if_blocked, up to bucket acquisition: returns the
`waited_reactively` flag and the instant at which the caller proceeds
to acquire a token (after sleeping out the reactive block, if any). -/
def waitIfBlocked (st : RateLimiterState) (now : ℚ) : Bool × ℚ :=
  if now < st.blocked_until then (true, st.blocked_until) else (false, now)

/-! ## Error mapping — src/providers/nvidia_mixins.py, ErrorMapperMixin -/

/-- The openai exception classes distinguished by _map_error. -/
inductive UpstreamError where
  | authentication (msg : String)
  | rateLimit (msg : String)
  | badRequest (msg : String)
  | internalServer (msg : String)
  | api (statusCode : Nat) (msg : String)
  | unknown
deriving DecidableEq, Repr

/-- The ProviderError taxonomy returned by _map_error. -/
inductive MappedError where
  | authenticationError
  | rateLimitError
  | invalidRequestError
  | overloadedError
  | apiError (statusCode : Nat)
  | passthrough
deriving DecidableEq, Repr

/-- Case-insensitive substring check, for
`"overloaded" in message.lower() or "capacity" in message.lower()`. -/
def containsLower (msg pat : String) : Bool :=
  let cs := msg.toLower.toList
  (List.range (cs.length + 1)).any (fun i => pat.toList.isPrefixOf (cs.drop i))

/-- _map_error from src/providers/nvidia_mixins.py, paired with the
global rate-limiter state it may mutate: an openai.RateLimitError
triggers `GlobalRateLimiter.get_instance().set_blocked(60)` before the
RateLimitError is returned. -/
def mapError (e : UpstreamError) (st : RateLimiterState) (now : ℚ) :
    MappedError × RateLimiterState :=
  match e with
  | .authentication _ => (.authenticationError, st)
  | .rateLimit _ => (.rateLimitError, setBlocked st now 60)
  | .badRequest _ => (.invalidRequestError, st)
  | .internalServer msg =>
      if containsLower msg "overloaded" || containsLower msg "capacity" then
        (.overloadedError, st)
      else
        (.apiError 500, st)
  | .api statusCode _ => (.apiError statusCode, st)
  | .unknown => (.passthrough, st)

/-! ## Ingress text validation — src/api/models/anthropic.py -/

/-- The raw JSON value of the `"text"` field of an ingress text
content block: absent, explicit null, or a string. -/
inductive RawTextField where
  | absent
  | null
  | str (s : String)
deriving DecidableEq, Repr

/-- coerce_none_text (model_validator, mode="before"): a null text
field is rewritten to the empty string before validation. -/
def coerceNoneText : RawTextField → RawTextField
  | .null => .str ""
  | x => x

/-- Pydantic validation of the field `text : str = ""`: absent takes
the default, a string is accepted, null is rejected. -/
def validateStrField : RawTextField → Option String
  | .absent => some ""
  | .str s => some s
  | .null => none

/-- Parsing of ContentBlockText's text field: the before-validator
runs first, then the field validation. -/
def parseContentBlockText (t : RawTextField) : Option String :=
  validateStrField (coerceNoneText t)

/-! ## Response conversion — src/providers/nvidia_mixins.py, ResponseConverterMixin -/

/-- Modelled from the spec: extract_think_content (imported by
nvidia_mixins from providers.common, whose think_parser module is not
part of this extract) runs the Think-tag Parser of spec section 4.4
once over a complete string.  Characters between a literal
case-sensitive open tag and its close tag are THINK output, everything
else (including a trailing partial tag, flushed on finalize) is NORMAL
output; tags do not nest.  The scan returns (thinking text, remaining
text) as the concatenations of the THINK and NORMAL chunks. -/
def thinkScan : Bool → List Char → List Char × List Char
  | false, '<' :: 't' :: 'h' :: 'i' :: 'n' :: 'k' :: '>' :: rest =>
      thinkScan true rest
  | false, c :: rest =>
      let (tk, tx) := thinkScan false rest
      (tk, c :: tx)
  | true, '<' :: '/' :: 't' :: 'h' :: 'i' :: 'n' :: 'k' :: '>' :: rest =>
      thinkScan false rest
  | true, c :: rest =>
      let (tk, tx) := thinkScan true rest
      (c :: tk, tx)
  | _, [] => ([], [])

/-- Modelled from the spec: the (thinking, remainder) pair that
extract_think_content returns for a complete content string. -/
def extractThinkContent (s : String) : String × String :=
  let (tk, tx) := thinkScan false s.toList
  (String.mk tk, String.mk tx)

/-- One entry of an upstream `reasoning_details` list: `some t` is a
dict whose `"text"` field reads `t` (empty string when missing),
`none` is a non-dict entry, skipped by the join. -/
def RDetail : Type := Option String
deriving instance DecidableEq, Repr for RDetail

/-- One entry of an upstream content LIST: `some t` is a dict with
`"type": "text"` and text `t`; `none` is any other entry, skipped. -/
def OAIItem : Type := Option String
deriving instance DecidableEq, Repr for OAIItem

/-- The `content` field of the upstream message: absent/null, a
string, or a list of items. -/
inductive OAIContent where
  | str (s : String)
  | list (items : List OAIItem)
deriving DecidableEq, Repr

/-- One entry of the upstream `tool_calls` list.  The `arguments`
string is carried verbatim; the converter's json.loads / raw-string
fallback only shapes the `input` payload, which no block-level fact
below inspects. -/
structure OAIToolCall where
  id : String
  name : String
  arguments : String
deriving DecidableEq, Repr

/-- The `choices[0].message` of an upstream non-streaming response, as
read by convert_response. -/
structure OAIMessage where
  reasoning_content : Option String
  reasoning_details : Option (List RDetail)
  content : Option OAIContent
  tool_calls : Option (List OAIToolCall)
deriving DecidableEq, Repr

/-- An Anthropic content block as emitted by convert_response.
tool_use carries the raw arguments string (see OAIToolCall). -/
inductive ABlock where
  | text (t : String)
  | thinking (t : String)
  | tool_use (id : String) (name : String) (args : String)
deriving DecidableEq, Repr

/-- Whether a block is a thinking block. -/
def ABlock.isThinking : ABlock → Bool
  | .thinking _ => true
  | _ => false

/-- The reasoning string convert_response settles on: a truthy
`reasoning_content`, else the newline-join of the dict texts of a
truthy `reasoning_details` list, else empty (Python falsiness of
`None` and `""` collapses to the empty string). -/
def reasoningOf (m : OAIMessage) : String :=
  let rc := m.reasoning_content.getD ""
  if rc = "" then
    match m.reasoning_details with
    | some ds => if ds = [] then "" else String.intercalate "\n" (ds.filterMap id)
    | none => ""
  else rc

/-- The blocks convert_response appends for the upstream content
field: a truthy string runs the think-tag extraction when no reasoning
was found (thinking block for a truthy extracted part, text block for
a truthy remainder), or becomes a single text block otherwise; a
truthy list contributes its `"type": "text"` dict entries. -/
def contentPart (m : OAIMessage) : List ABlock :=
  let reasoning := reasoningOf m
  match m.content with
  | none => []
  | some (.str s) =>
      if s = "" then []
      else
        if reasoning = "" then
          (if (extractThinkContent s).1 = "" then []
           else [ABlock.thinking (extractThinkContent s).1])
            ++ (if (extractThinkContent s).2 = "" then []
                else [ABlock.text (extractThinkContent s).2])
        else [ABlock.text s]
  | some (.list items) =>
      if items = [] then []
      else items.filterMap (fun it => it.map ABlock.text)

/-- The tool_use blocks convert_response appends for a truthy
`tool_calls` list. -/
def toolPart (m : OAIMessage) : List ABlock :=
  match m.tool_calls with
  | none => []
  | some tcs =>
      if tcs = [] then []
      else tcs.map (fun tc => ABlock.tool_use tc.id tc.name tc.arguments)

/-- All blocks convert_response accumulates before the empty-content
fixup: leading thinking block for a truthy reasoning, then the content
blocks, then the tool_use blocks. -/
def responseBlocks (m : OAIMessage) : List ABlock :=
  (if reasoningOf m = "" then [] else [ABlock.thinking (reasoningOf m)])
    ++ contentPart m ++ toolPart m

/-- The final content list of convert_response: the accumulated
blocks, or a single-space text block when none accumulated. -/
def convertContent (m : OAIMessage) : List ABlock :=
  let content := responseBlocks m
  if content = [] then [ABlock.text " "] else content

/-! ## Conversation trees — src/messaging/trees/

queue_manager.py and repository.py are part of this extract and are
translated directly.  The MessageTree/MessageNode operations they call
live in src/messaging/trees/data.py and the TreeQueueProcessor in
src/messaging/trees/processor.py, neither of which is part of the
extract: those operations are modelled from the spec (sections 3, 4.7
and 4.9), as marked.  Python's in-place mutation of tree and node
objects is rendered as explicit state passing: every manager operation
returns the updated repository state. -/

/-- Node lifecycle states (spec section 3, MessageNode). -/
inductive MessageState where
  | pending
  | in_progress
  | completed
  | error
deriving DecidableEq, Repr

/-- A message node, restricted to the fields the claims touch.
Timestamps are abstract naturals.  The node's id is the key under
which the owning tree stores it. -/
structure MessageNode where
  state : MessageState
  error_message : Option String
  completed_at : Option Nat
  children_ids : List String
deriving DecidableEq, Repr

/-- A message tree: node map (association list keyed by node id),
FIFO queue of node ids, current-node pointer, whether a live task
handle exists, and the processing flag (spec section 3,
MessageTree). -/
structure MessageTree where
  root_id : String
  nodes : List (String × MessageNode)
  queue : List String
  current_node_id : Option String
  current_task : Bool
  is_processing : Bool
deriving DecidableEq, Repr

/-- Lookup in an association list (first entry wins, like a dict). -/
def alistGet {α : Type} (l : List (String × α)) (k : String) : Option α :=
  match l with
  | [] => none
  | (k', v) :: rest => if k' = k then some v else alistGet rest k

/-- Pointwise update of every entry with the given key (a dict holds
one entry per key; duplicates in the model are all updated). -/
def alistUpdate {α : Type} (l : List (String × α)) (k : String) (f : α → α) :
    List (String × α) :=
  match l with
  | [] => []
  | (a, b) :: rest =>
      if a = k then (a, f b) :: alistUpdate rest k f
      else (a, b) :: alistUpdate rest k f

/-- get_node / has_node on a tree (spec section 4.7). -/
def MessageTree.get_node (t : MessageTree) (nid : String) : Option MessageNode :=
  alistGet t.nodes nid

/-- In-place update of one node of a tree. -/
def MessageTree.updateNode (t : MessageTree) (nid : String)
    (f : MessageNode → MessageNode) : MessageTree :=
  { t with nodes := alistUpdate t.nodes nid f }

/-- Marking a node ERROR with a message, as cancel_tree's steps do
(`node.state = MessageState.ERROR; node.error_message = ...`). -/
def MessageTree.markError (t : MessageTree) (nid : String) (msg : String) :
    MessageTree :=
  t.updateNode nid (fun n => { n with state := .error, error_message := some msg })

/-- Modelled from the spec: update_state of
src/messaging/trees/data.py sets the node's state and records the
error message when one is given (spec section 4.7). -/
def MessageTree.update_state (t : MessageTree) (nid : String)
    (st : MessageState) (msg : Option String) : MessageTree :=
  t.updateNode nid (fun n =>
    { n with state := st, error_message := msg.orElse (fun _ => n.error_message) })

/-- Modelled from the spec: cancel_current_task of
src/messaging/trees/data.py cancels the running task if any and
returns whether one existed (spec section 4.7).  Requesting
cancellation does not itself rewrite the tree's pointers. -/
def MessageTree.cancel_current_task (t : MessageTree) : Bool × MessageTree :=
  (t.current_task, t)

/-- Modelled from the spec: is_current_node of
src/messaging/trees/data.py (spec section 4.7). -/
def MessageTree.is_current_node (t : MessageTree) (nid : String) : Bool :=
  t.current_node_id = some nid

/-- Modelled from the spec: remove_from_queue of
src/messaging/trees/data.py drops the node id from the FIFO queue. -/
def MessageTree.remove_from_queue (t : MessageTree) (nid : String) : MessageTree :=
  { t with queue := t.queue.filter (fun q => q ≠ nid) }

/-- Modelled from the spec: the drain loop of
drain_queue_and_mark_cancelled pops every queued id, marks the node it
names ERROR "Cancelled by user", and returns the nodes found (spec
section 4.7); rendered as ids against the evolving tree. -/
def drainLoop (t : MessageTree) : List String → MessageTree × List String
  | [] => (t, [])
  | nid :: rest =>
      match t.get_node nid with
      | some _ =>
          let p := drainLoop (t.markError nid "Cancelled by user") rest
          (p.1, nid :: p.2)
      | none => drainLoop t rest

/-- Modelled from the spec: drain_queue_and_mark_cancelled of
src/messaging/trees/data.py (spec section 4.7). -/
def MessageTree.drain_queue_and_mark_cancelled (t : MessageTree) :
    MessageTree × List String :=
  drainLoop { t with queue := [] } t.queue

/-- Modelled from the spec: reset of the processing state at the end
of cancel_tree — `is_processing=False`, `current_node_id=None` (spec
section 4.9), dropping the cancelled task handle. -/
def MessageTree.reset_processing_state (t : MessageTree) : MessageTree :=
  { t with is_processing := false, current_node_id := none, current_task := false }

/-- Entrywise stale marking over the node map: any PENDING or
IN_PROGRESS node not among the already-cancelled ids is marked ERROR
"Stale task cleaned up". -/
def cleanupStaleNodes (cancelledIds : List String) :
    List (String × MessageNode) → List (String × MessageNode)
  | [] => []
  | (a, n) :: rest =>
      if (n.state = .pending ∨ n.state = .in_progress) ∧ a ∉ cancelledIds then
        (a, { n with state := .error, error_message := some "Stale task cleaned up" })
          :: cleanupStaleNodes cancelledIds rest
      else (a, n) :: cleanupStaleNodes cancelledIds rest

/-- all_nodes-based stale cleanup, step 3 of cancel_tree. -/
def MessageTree.cleanupStale (t : MessageTree) (cancelledIds : List String) :
    MessageTree :=
  { t with nodes := cleanupStaleNodes cancelledIds t.nodes }

/-- Step 1 of cancel_tree: cancel the running task; if one existed and
the current node is not terminal, mark it ERROR "Cancelled by user". -/
def cancelTreeStep1 (t : MessageTree) : MessageTree × List String :=
  let c := t.cancel_current_task
  if c.1 then
    match c.2.current_node_id with
    | some cid =>
        match c.2.get_node cid with
        | some n =>
            if n.state ≠ .completed ∧ n.state ≠ .error then
              (c.2.markError cid "Cancelled by user", [cid])
            else (c.2, [])
        | none => (c.2, [])
    | none => (c.2, [])
  else (c.2, [])

/-- cancel_tree from src/messaging/trees/queue_manager.py, at the
level of one tree: cancel the running task and mark its live node,
drain the queue, clean up any other PENDING/IN_PROGRESS node as stale,
then reset the processing state.  Returns the cancelled node ids. -/
def MessageTree.cancelTree (t : MessageTree) : MessageTree × List String :=
  let s1 := cancelTreeStep1 t
  let s2 := s1.1.drain_queue_and_mark_cancelled
  let cancelledIds := s1.2 ++ s2.2
  let t4 := s2.1.cleanupStale cancelledIds
  (t4.reset_processing_state, cancelledIds)

/-- Repository state: root_id → tree and node_id → root_id maps
(src/messaging/trees/repository.py, TreeRepository.__init__). -/
structure TreeRepoState where
  trees : List (String × MessageTree)
  node_to_tree : List (String × String)
deriving DecidableEq, Repr

/-- TreeRepository.get_tree. -/
def TreeRepoState.get_tree (r : TreeRepoState) (root_id : String) :
    Option MessageTree :=
  alistGet r.trees root_id

/-- TreeRepository.get_tree_for_node: resolve the node to its root,
then the root to its tree. -/
def TreeRepoState.get_tree_for_node (r : TreeRepoState) (nid : String) :
    Option MessageTree :=
  match alistGet r.node_to_tree nid with
  | none => none
  | some root_id => alistGet r.trees root_id

/-- Writing back a tree under the key it was found at — the functional
rendering of Python's in-place mutation of the shared tree object. -/
def TreeRepoState.setTree (r : TreeRepoState) (root_id : String)
    (t : MessageTree) : TreeRepoState :=
  { r with trees := alistUpdate r.trees root_id (fun _ => t) }

/-- TreeRepository.get_pending_children restricted to one tree, with
explicit recursion fuel standing in for Python's unbounded recursion:
each child of the node in PENDING state is collected and recursed
into; children in any other state (and unknown ids) are skipped. -/
def pendingChildren (t : MessageTree) : Nat → String → List String
  | 0, _ => []
  | fuel + 1, nid =>
      match t.get_node nid with
      | none => []
      | some n =>
          n.children_ids.flatMap (fun cid =>
            match t.get_node cid with
            | some c =>
                if c.state = .pending then cid :: pendingChildren t fuel cid
                else []
            | none => [])

/-- TreeRepository.get_pending_children from
src/messaging/trees/repository.py, with fuel fixed at the node-map
size (enough for every acyclic tree). -/
def TreeRepoState.get_pending_children (r : TreeRepoState) (nid : String) :
    List String :=
  match r.get_tree_for_node nid with
  | none => []
  | some t => pendingChildren t t.nodes.length nid

/-- mark_node_error from src/messaging/trees/queue_manager.py: mark
the node ERROR with the message; when propagating, mark every
recursively-pending child ERROR with "Parent failed: <message>".
Returns the updated repository and the affected node ids. -/
def markNodeError (r : TreeRepoState) (nid : String) (msg : String)
    (propagate : Bool) : TreeRepoState × List String :=
  match alistGet r.node_to_tree nid with
  | none => (r, [])
  | some root_id =>
      match alistGet r.trees root_id with
      | none => (r, [])
      | some t =>
          let p :=
            match t.get_node nid with
            | some _ => (t.update_state nid .error (some msg), [nid])
            | none => (t, ([] : List String))
          if propagate then
            let r1 := r.setTree root_id p.1
            let pcs := r1.get_pending_children nid
            let t2 := pcs.foldl
              (fun acc cid =>
                acc.update_state cid .error (some ("Parent failed: " ++ msg))) p.1
            (r.setTree root_id t2, p.2 ++ pcs)
          else (r.setTree root_id p.1, p.2)

/-- The tree after the mutating steps of cancel_node: cancel the
current task when the node is current, drop the node from the queue,
then mark it ERROR "Cancelled by user" with a completion timestamp. -/
def cancelledNodeTree (t : MessageTree) (nid : String) (now : Nat) : MessageTree :=
  let t1 := if t.is_current_node nid then { t with current_task := false } else t
  let t2 := t1.remove_from_queue nid
  t2.updateNode nid (fun nd =>
    { nd with state := .error,
              error_message := some "Cancelled by user",
              completed_at := some now })

/-- cancel_node from src/messaging/trees/queue_manager.py: a missing
or terminal node is left alone; otherwise the mutating steps of
cancelledNodeTree run and the node is reported cancelled. -/
def cancelNode (r : TreeRepoState) (nid : String) (now : Nat) :
    TreeRepoState × List String :=
  match alistGet r.node_to_tree nid with
  | none => (r, [])
  | some root_id =>
      match alistGet r.trees root_id with
      | none => (r, [])
      | some t =>
          match t.get_node nid with
          | none => (r, [])
          | some n =>
              if n.state = .completed ∨ n.state = .error then (r, [])
              else (r.setTree root_id (cancelledNodeTree t nid now), [nid])

/-- cancel_tree at the manager level
(src/messaging/trees/queue_manager.py): look the tree up by root id
and run the per-tree cancellation. -/
def cancelTreeM (r : TreeRepoState) (root_id : String) :
    TreeRepoState × List String :=
  match alistGet r.trees root_id with
  | none => (r, [])
  | some t => (r.setTree root_id (t.cancelTree).1, (t.cancelTree).2)

/-- Modelled from the spec: enqueue_and_start of
src/messaging/trees/processor.py (spec section 4.9): an idle tree with
an empty queue starts the node at once (IN_PROGRESS, current pointers
set, drain loop spawned) and reports False; otherwise the node is
pushed and True is reported. -/
def enqueueAndStart (t : MessageTree) (nid : String) : MessageTree × Bool :=
  if !t.is_processing ∧ t.queue = [] then
    ({ t with
        is_processing := true,
        current_node_id := some nid,
        current_task := true,
        nodes := alistUpdate t.nodes nid (fun n => { n with state := .in_progress }) },
      false)
  else
    ({ t with queue := t.queue ++ [nid] }, true)

/-- enqueue from src/messaging/trees/queue_manager.py: resolve the
node's tree; report False without further effect when none exists,
else hand over to the processor. -/
def enqueueM (r : TreeRepoState) (nid : String) : TreeRepoState × Bool :=
  match alistGet r.node_to_tree nid with
  | none => (r, false)
  | some root_id =>
      match alistGet r.trees root_id with
      | none => (r, false)
      | some t =>
          let (t', queued) := enqueueAndStart t nid
          (r.setTree root_id t', queued)

/-- Transitively-pending descendants: d is reachable from p through a
chain of children each of which exists and is PENDING — the set
mark_node_error's propagation is meant to reach. -/
inductive IsPendingDescendant (t : MessageTree) : String → String → Prop where
  | base {p c : String} {np nc : MessageNode} :
      t.get_node p = some np → c ∈ np.children_ids →
      t.get_node c = some nc → nc.state = .pending →
      IsPendingDescendant t p c
  | step {p c d : String} {np nc : MessageNode} :
      t.get_node p = some np → c ∈ np.children_ids →
      t.get_node c = some nc → nc.state = .pending →
      IsPendingDescendant t c d →
      IsPendingDescendant t p d

/-! ## Helper lemmas -/

/-- Summing a mapped list with a constant bonus per element. -/
lemma sum_map_add_const {α : Type} (f : α → Nat) (c : Nat) (l : List α) :
    (l.map (fun x => f x + c)).sum = (l.map f).sum + c * l.length := by
  induction l with
  | nil => simp
  | cons a l ih => simp [ih]; ring

/-- Lookup after a keyed update of an association list. -/
lemma alistGet_update {α : Type} (l : List (String × α)) (k j : String)
    (f : α → α) :
    alistGet (alistUpdate l k f) j =
      if j = k then (alistGet l j).map f else alistGet l j := by
  induction l with
  | nil => simp [alistGet, alistUpdate]
  | cons p l ih =>
      obtain ⟨a, b⟩ := p
      by_cases hak : a = k <;> by_cases haj : a = j
      · subst hak; subst haj
        simp [alistGet, alistUpdate]
      · subst hak
        have hja : ¬ j = a := fun h => haj h.symm
        simp [alistGet, alistUpdate, haj, hja, ih]
      · subst haj
        simp [alistGet, alistUpdate, hak, ih]
      · have hja : ¬ j = a := fun h => haj h.symm
        simp [alistGet, alistUpdate, hak, haj, hja, ih]

/-! ## C1 — token-count overheads -/

/-- C1: the claim's overhead table (+15 per tool_use, +8 per
tool_result, 4 per message, +4 system framing, image costs) does not
match get_token_count: already a single message with empty string
content is counted 3 (per-message overhead) by the code and 4 by the
claim, for any shared encoder. -/
theorem c1_counterexample :
    getTokenCount String.length [⟨TCContent.str ""⟩] none none
      ≠ claimTokenCount String.length [⟨TCContent.str ""⟩] none none := by
  decide

/-- C1 (amended): for every encoder that maps the empty string to zero
tokens (as any BPE does), get_token_count returns the encoded size of
system text, message text/thinking/tool content and tool definitions,
plus 3 per message, +10 per tool_use, +5 per tool_result, +5 per tool
definition, no image cost and no system framing, floored at 1. -/
theorem c1_token_count_amended (enc : String → Nat) (henc : enc "" = 0)
    (messages : List TCMessage) (system : Option TCSystem)
    (tools : Option (List TCTool)) :
    getTokenCount enc messages system tools
      = amendedTokenCount enc messages system tools := by
  simp only [getTokenCount, amendedTokenCount]
  congr 1
  have hsys : tcSystemTokens enc system =
      (match system with
       | none => 0
       | some (.str s) => enc s
       | some (.blocks l) => (l.map enc).sum) := by
    cases system with
    | none => rfl
    | some s =>
        cases s with
        | str s => by_cases h : s = "" <;> simp [tcSystemTokens, h, henc]
        | blocks l => by_cases h : l = [] <;> simp [tcSystemTokens, h]
  have hmsg : (messages.map (fun m => tcContentTokens enc m.content + 3)).sum
      = (messages.map (fun m => tcContentTokens enc m.content)).sum
        + 3 * messages.length := by
    simpa using sum_map_add_const (fun m => tcContentTokens enc m.content) 3 messages
  have htool :
      ((match tools with
        | none => 0
        | some ts => if ts = [] then 0 else (ts.map (tcToolTokens enc)).sum)
       + (match tools with
          | none => 0
          | some ts => if ts = [] then 0 else ts.length * 5))
      = (match tools with
         | none => 0
         | some ts => (ts.map (fun t => tcToolTokens enc t + 5)).sum) := by
    cases tools with
    | none => rfl
    | some ts =>
        by_cases h : ts = []
        · simp [h]
        · simp only [if_neg h]
          rw [sum_map_add_const (tcToolTokens enc) 5 ts]
          ring
  rw [hsys, hmsg] at *
  omega

/-- C1 witness: the amended equation evaluated at a concrete request
(text, tool_use and image blocks, a system string, one tool). -/
theorem c1_witness :
    String.length "" = 0 ∧
    getTokenCount String.length
        [⟨TCContent.str "hi"⟩,
         ⟨TCContent.blocks [TCBlock.tool_use "t" "{}", TCBlock.image none]⟩]
        (some (TCSystem.str "sys")) (some [⟨"w", none, "{}"⟩])
      = amendedTokenCount String.length
        [⟨TCContent.str "hi"⟩,
         ⟨TCContent.blocks [TCBlock.tool_use "t" "{}", TCBlock.image none]⟩]
        (some (TCSystem.str "sys")) (some [⟨"w", none, "{}"⟩]) :=
  ⟨rfl, c1_token_count_amended String.length rfl _ _ _⟩

/-! ## C2 — set_blocked does not take a maximum -/

/-- C2: set_blocked(60) at t=0 followed by set_blocked(10) at t=1
leaves blocked_until at 11, not at max(1+10, 60) = 60 — the second
call moves blocked_until backward, shortening the active block. -/
theorem c2_counterexample :
    (setBlocked (setBlocked ⟨0⟩ 0 60) 1 10).blocked_until
        ≠ max ((1 : ℚ) + 10) (setBlocked ⟨0⟩ 0 60).blocked_until
      ∧ (setBlocked (setBlocked ⟨0⟩ 0 60) 1 10).blocked_until
        < (setBlocked ⟨0⟩ 0 60).blocked_until := by
  constructor <;> norm_num [setBlocked]

/-- C2 (amended): after set_blocked(s2) at now2, blocked_until equals
now2 + s2 regardless of any earlier set_blocked — the deadline is
overwritten, not advanced to a maximum, so a later call with a smaller
deadline shortens an active block. -/
theorem c2_set_blocked_overwrites (st : RateLimiterState) (t1 s1 t2 s2 : ℚ) :
    (setBlocked (setBlocked st t1 s1) t2 s2).blocked_until = t2 + s2
      ∧ (setBlocked st t1 s1).blocked_until = t1 + s1 :=
  ⟨rfl, rfl⟩

/-! ## C6 — a mapped 429 blocks subsequent callers -/

/-- C6: mapping an upstream 429 returns RateLimitError and sets the
global block to now + 60; any wait_if_blocked call at a time t within
the following 60 seconds observes the block and sleeps until it
clears, only then proceeding to acquire a token. -/
theorem c6_rate_limit_blocks (msg : String) (st : RateLimiterState)
    (now t : ℚ) (h1 : now ≤ t) (h2 : t < now + 60) :
    mapError (.rateLimit msg) st now = (.rateLimitError, setBlocked st now 60)
      ∧ (mapError (.rateLimit msg) st now).2.blocked_until = now + 60
      ∧ isBlocked (mapError (.rateLimit msg) st now).2 t = true
      ∧ waitIfBlocked (mapError (.rateLimit msg) st now).2 t = (true, now + 60) := by
  refine ⟨rfl, rfl, ?_, ?_⟩
  · simp [mapError, setBlocked, isBlocked, h2]
  · simp [mapError, setBlocked, waitIfBlocked, h2]

/-- C6 witness: a 429 mapped at t=0 blocks a caller arriving at t=30
until t=60. -/
theorem c6_rate_limit_blocks_witness :
    (0 : ℚ) ≤ 30 ∧ (30 : ℚ) < 0 + 60
      ∧ (mapError (.rateLimit "429") ⟨5⟩ 0
          = (.rateLimitError, setBlocked ⟨5⟩ 0 60)
        ∧ (mapError (.rateLimit "429") ⟨5⟩ 0).2.blocked_until = 0 + 60
        ∧ isBlocked (mapError (.rateLimit "429") ⟨5⟩ 0).2 30 = true
        ∧ waitIfBlocked (mapError (.rateLimit "429") ⟨5⟩ 0).2 30 = (true, 0 + 60)) :=
  ⟨by norm_num, by norm_num,
    c6_rate_limit_blocks "429" ⟨5⟩ 0 30 (by norm_num) (by norm_num)⟩

/-! ## C10 — null text fields are coerced -/

/-- C10: a text content block whose text field is present but null is
coerced to the empty string rather than rejected, and every parse
of the modelled text-field values yields a string. -/
theorem c10_null_text_coerced :
    parseContentBlockText .null = some ""
      ∧ ∀ t, (parseContentBlockText t).isSome = true := by
  refine ⟨rfl, ?_⟩
  intro t
  cases t <;> rfl

/-! ## C9 — enqueue of an unknown node -/

/-- C9: enqueue of a node registered in no tree reports False and
leaves the repository untouched; an immediate start on an idle tree
reports the same False, so the Boolean alone cannot tell the two
apart. -/
theorem c9_enqueue_unknown_node :
    (∀ (r : TreeRepoState) (nid : String),
        alistGet r.node_to_tree nid = none → enqueueM r nid = (r, false))
      ∧ (∀ (r : TreeRepoState) (nid root_id : String) (t : MessageTree),
          alistGet r.node_to_tree nid = some root_id →
          alistGet r.trees root_id = some t →
          t.is_processing = false → t.queue = [] →
          (enqueueM r nid).2 = false) := by
  constructor
  · intro r nid h
    simp [enqueueM, h]
  · intro r nid root_id t h1 h2 h3 h4
    simp [enqueueM, h1, h2, enqueueAndStart, h3, h4]

/-- C9 witness: an empty repository rejects node "x" with False, and a
repository holding one idle tree starts its root immediately, also
reporting False. -/
theorem c9_enqueue_unknown_node_witness :
    enqueueM ⟨[], []⟩ "x" = (⟨[], []⟩, false)
      ∧ (enqueueM
          ⟨[("r", ⟨"r", [("r", ⟨.pending, none, none, []⟩)], [], none, false, false⟩)],
            [("r", "r")]⟩ "r").2 = false :=
  ⟨c9_enqueue_unknown_node.1 ⟨[], []⟩ "x" rfl,
    c9_enqueue_unknown_node.2 _ "r" "r"
      ⟨"r", [("r", ⟨.pending, none, none, []⟩)], [], none, false, false⟩
      rfl rfl rfl rfl⟩

/-! ## C8 — empty conversions yield a single-space text block -/

/-- C8: convert_response never returns an empty content list, and
whenever the conversion accumulates no blocks the result is exactly
one text block holding a single space. -/
theorem c8_empty_content_space (m : OAIMessage) :
    convertContent m ≠ []
      ∧ (responseBlocks m = [] → convertContent m = [ABlock.text " "]) := by
  constructor
  · unfold convertContent
    by_cases h : responseBlocks m = [] <;> simp [h]
  · intro h
    simp [convertContent, h]

/-- C8 witness: an upstream message with no reasoning, no content and
no tool calls converts to the single-space text block. -/
theorem c8_empty_content_space_witness :
    responseBlocks (OAIMessage.mk none none none none) = []
      ∧ convertContent (OAIMessage.mk none none none none) = [ABlock.text " "] :=
  ⟨by decide, (c8_empty_content_space _).2 (by decide)⟩

/-! ## C4 — at most one thinking block, and it leads -/

/-- tool_use blocks are never thinking blocks. -/
lemma toolPart_not_thinking (m : OAIMessage) :
    ∀ b ∈ toolPart m, b.isThinking = false := by
  intro b hb
  unfold toolPart at hb
  rcases h : m.tool_calls with _ | tcs
  · rw [h] at hb; simp at hb
  · rw [h] at hb
    by_cases he : tcs = []
    · simp [he] at hb
    · simp [he, List.mem_map] at hb
      obtain ⟨tc, _, rfl⟩ := hb
      rfl

/-- List-content items only ever become text blocks. -/
lemma filterMap_text_not_thinking (items : List OAIItem) :
    ∀ b ∈ items.filterMap (fun it => it.map ABlock.text), b.isThinking = false := by
  intro b hb
  simp [List.mem_filterMap, Option.map_eq_some'] at hb
  obtain ⟨it, _, t, _, rfl⟩ := hb
  rfl

/-- The content blocks are either thinking-free, or a single leading
thinking block followed by thinking-free blocks. -/
lemma contentPart_structure (m : OAIMessage) :
    (∀ b ∈ contentPart m, b.isThinking = false)
      ∨ ∃ tk rest, contentPart m = ABlock.thinking tk :: rest
          ∧ ∀ b ∈ rest, b.isThinking = false := by
  rcases hc : m.content with _ | c
  · left; simp [contentPart, hc]
  · rcases c with s | items
    · by_cases hs : s = ""
      · left; simp [contentPart, hc, hs]
      · by_cases hr : reasoningOf m = ""
        · by_cases htk : (extractThinkContent s).1 = ""
          · left
            intro b hb
            simp [contentPart, hc, hs, hr, htk] at hb
            by_cases htx : (extractThinkContent s).2 = ""
            · simp [htx] at hb
            · simp [htx] at hb; subst hb; rfl
          · right
            refine ⟨(extractThinkContent s).1,
              (if (extractThinkContent s).2 = "" then []
               else [ABlock.text (extractThinkContent s).2]), ?_, ?_⟩
            · simp [contentPart, hc, hs, hr, htk]
            · intro b hb
              by_cases htx : (extractThinkContent s).2 = ""
              · simp [htx] at hb
              · simp [htx] at hb; subst hb; rfl
        · left
          intro b hb
          simp [contentPart, hc, hs, hr] at hb
          subst hb; rfl
    · left
      intro b hb
      by_cases hi : items = []
      · simp [contentPart, hc, hi] at hb
      · simp only [contentPart, hc, if_neg hi] at hb
        exact filterMap_text_not_thinking items b hb

/-- C4: the converted content carries at most one thinking block and
only in leading position — every block after the first is not a
thinking block; when upstream reasoning is present it becomes the
leading thinking block and the content string is passed through
unsplit; otherwise the content string is split once by the think-tag
extraction, the extracted part (if non-empty) leads as a thinking
block and the remainder (if non-empty) follows as a text block. -/
theorem c4_thinking_block_leading (m : OAIMessage) :
    (∀ b ∈ (convertContent m).drop 1, b.isThinking = false)
      ∧ (reasoningOf m ≠ "" → ∀ s, m.content = some (.str s) → s ≠ "" →
          responseBlocks m
            = ABlock.thinking (reasoningOf m) :: ABlock.text s :: toolPart m)
      ∧ (reasoningOf m = "" → ∀ s, m.content = some (.str s) → s ≠ "" →
          responseBlocks m
            = (if (extractThinkContent s).1 = "" then []
               else [ABlock.thinking (extractThinkContent s).1])
              ++ (if (extractThinkContent s).2 = "" then []
                  else [ABlock.text (extractThinkContent s).2])
              ++ toolPart m) := by
  refine ⟨?_, ?_, ?_⟩
  · suffices h : (∀ b ∈ convertContent m, b.isThinking = false)
        ∨ ∃ tk rest, convertContent m = ABlock.thinking tk :: rest
            ∧ ∀ b ∈ rest, b.isThinking = false by
      intro b hb
      rcases h with h | ⟨tk, rest, he, hrest⟩
      · exact h b (List.mem_of_mem_drop hb)
      · rw [he] at hb; simp at hb; exact hrest b hb
    by_cases hrb : responseBlocks m = []
    · left
      intro b hb
      simp [convertContent, hrb] at hb
      subst hb; rfl
    · have hcc : convertContent m = responseBlocks m := by
        simp [convertContent, hrb]
      rw [hcc]
      by_cases hr : reasoningOf m = ""
      · have hrb2 : responseBlocks m = contentPart m ++ toolPart m := by
          simp [responseBlocks, hr]
        rcases contentPart_structure m with hcp | ⟨tk, rest, hcpe, hrest⟩
        · left
          intro b hb
          rw [hrb2] at hb
          rcases List.mem_append.mp hb with hb | hb
          · exact hcp b hb
          · exact toolPart_not_thinking m b hb
        · right
          refine ⟨tk, rest ++ toolPart m, by rw [hrb2, hcpe]; simp, ?_⟩
          intro b hb
          rcases List.mem_append.mp hb with hb | hb
          · exact hrest b hb
          · exact toolPart_not_thinking m b hb
      · have hrb2 : responseBlocks m
            = ABlock.thinking (reasoningOf m) :: (contentPart m ++ toolPart m) := by
          simp [responseBlocks, hr]
        right
        refine ⟨reasoningOf m, contentPart m ++ toolPart m, hrb2, ?_⟩
        have hcp : ∀ b ∈ contentPart m, b.isThinking = false := by
          intro b hb
          rcases hc : m.content with _ | c
          · rw [contentPart, hc] at hb; simp at hb
          · rcases c with s | items
            · by_cases hs : s = ""
              · simp [contentPart, hc, hs] at hb
              · simp [contentPart, hc, hs, hr] at hb
                subst hb; rfl
            · by_cases hi : items = []
              · simp [contentPart, hc, hi] at hb
              · simp only [contentPart, hc, if_neg hi] at hb
                exact filterMap_text_not_thinking items b hb
        intro b hb
        rcases List.mem_append.mp hb with hb | hb
        · exact hcp b hb
        · exact toolPart_not_thinking m b hb
  · intro hr s hc hs
    simp [responseBlocks, contentPart, hc, hr, hs]
  · intro hr s hc hs
    simp [responseBlocks, contentPart, hc, hr, hs]

/-- C4 witness: a message with upstream reasoning and a content string
converts to a leading thinking block and an unsplit text block;
afterwards no thinking block remains past position 0. -/
theorem c4_thinking_block_leading_witness :
    reasoningOf (OAIMessage.mk (some "why") none
        (some (.str "he<think>x</think>llo")) none) = "why"
      ∧ responseBlocks (OAIMessage.mk (some "why") none
          (some (.str "he<think>x</think>llo")) none)
          = [ABlock.thinking "why", ABlock.text "he<think>x</think>llo"] := by
  refine ⟨by decide, ?_⟩
  have h := (c4_thinking_block_leading
    (OAIMessage.mk (some "why") none (some (.str "he<think>x</think>llo")) none)).2.1
    (by decide) "he<think>x</think>llo" rfl (by decide)
  simpa [reasoningOf, toolPart] using h


/-! ## C5 — cancel_node is a no-op on terminal nodes and idempotent -/

/-- The cancelled tree reads the node back marked ERROR. -/
lemma cancelledNodeTree_get (t : MessageTree) (nid : String) (now : Nat) :
    (cancelledNodeTree t nid now).get_node nid
      = (t.get_node nid).map (fun nd =>
          { nd with state := .error,
                    error_message := some "Cancelled by user",
                    completed_at := some now }) := by
  simp only [cancelledNodeTree, MessageTree.updateNode, MessageTree.get_node,
    MessageTree.remove_from_queue]
  split <;> rw [alistGet_update, if_pos rfl]

/-- A cancel of a COMPLETED or ERROR node returns early, for any
clock value. -/
lemma cancelNode_of_terminal (r : TreeRepoState) (nid : String)
    (root_id : String) (t : MessageTree) (n : MessageNode)
    (h1 : alistGet r.node_to_tree nid = some root_id)
    (h2 : alistGet r.trees root_id = some t)
    (h3 : t.get_node nid = some n)
    (h4 : n.state = .completed ∨ n.state = .error) :
    ∀ now, cancelNode r nid now = (r, []) := by
  intro now
  simp [cancelNode, h1, h2, h3, h4]

/-- A cancel of a live node overwrites the tree with the cancelled
version and reports the node. -/
lemma cancelNode_of_live (r : TreeRepoState) (nid : String)
    (root_id : String) (t : MessageTree) (n : MessageNode) (now : Nat)
    (h1 : alistGet r.node_to_tree nid = some root_id)
    (h2 : alistGet r.trees root_id = some t)
    (h3 : t.get_node nid = some n)
    (h4 : ¬(n.state = .completed ∨ n.state = .error)) :
    cancelNode r nid now = (r.setTree root_id (cancelledNodeTree t nid now), [nid]) := by
  simp [cancelNode, h1, h2, h3, h4]

/-- Cancelling a node that already reads ERROR in a freshly written
tree is a no-op. -/
lemma cancelNode_setTree_noop (r : TreeRepoState) (nid root_id : String)
    (t' : MessageTree) (n' : MessageNode) (now' : Nat)
    (h1 : alistGet r.node_to_tree nid = some root_id)
    (h2 : (alistGet r.trees root_id).isSome = true)
    (h3 : t'.get_node nid = some n')
    (h4 : n'.state = .error) :
    cancelNode (r.setTree root_id t') nid now' = (r.setTree root_id t', []) := by
  have e1 : alistGet (r.setTree root_id t').node_to_tree nid = some root_id := h1
  have e2 : alistGet (r.setTree root_id t').trees root_id = some t' := by
    simp only [TreeRepoState.setTree]
    rw [alistGet_update, if_pos rfl]
    rcases Option.isSome_iff_exists.mp h2 with ⟨t0, ht0⟩
    rw [ht0]
    rfl
  simp [cancelNode, e1, e2, h3, h4]

/-- C5: cancelling a COMPLETED or ERROR node is a no-op — the call
returns an empty list and the repository (node state, error message,
completion time, queue, current-task pointer) is exactly what it was —
and cancelling the same node twice leaves the same final state as
cancelling it once. -/
theorem c5_cancel_node_terminal_noop :
    (∀ (r : TreeRepoState) (nid : String) (now : Nat) (root_id : String)
        (t : MessageTree) (n : MessageNode),
        alistGet r.node_to_tree nid = some root_id →
        alistGet r.trees root_id = some t →
        t.get_node nid = some n →
        (n.state = .completed ∨ n.state = .error) →
        cancelNode r nid now = (r, []))
      ∧ (∀ (r : TreeRepoState) (nid : String) (now now' : Nat),
          (cancelNode (cancelNode r nid now).1 nid now').1
            = (cancelNode r nid now).1) := by
  constructor
  · intro r nid now root_id t n h1 h2 h3 h4
    exact cancelNode_of_terminal r nid root_id t n h1 h2 h3 h4 now
  · intro r nid now now'
    rcases h1 : alistGet r.node_to_tree nid with _ | root_id
    · simp [cancelNode, h1]
    · rcases h2 : alistGet r.trees root_id with _ | t
      · simp [cancelNode, h1, h2]
      · rcases h3 : t.get_node nid with _ | n
        · simp [cancelNode, h1, h2, h3]
        · by_cases h4 : n.state = .completed ∨ n.state = .error
          · rw [cancelNode_of_terminal r nid root_id t n h1 h2 h3 h4 now]
            rw [cancelNode_of_terminal r nid root_id t n h1 h2 h3 h4 now']
          · rw [cancelNode_of_live r nid root_id t n now h1 h2 h3 h4]
            have hget : (cancelledNodeTree t nid now).get_node nid
                = some { n with state := .error,
                                error_message := some "Cancelled by user",
                                completed_at := some now } := by
              rw [cancelledNodeTree_get, h3]
              rfl
            rw [cancelNode_setTree_noop r nid root_id (cancelledNodeTree t nid now)
              _ now' h1 (by rw [h2]; rfl) hget rfl]

/-- C5 witness: cancelling a COMPLETED root is a no-op, and a double
cancel of a PENDING node equals a single cancel. -/
theorem c5_cancel_node_terminal_noop_witness :
    cancelNode
        ⟨[("r", ⟨"r", [("r", ⟨.completed, none, some 7, []⟩)], [], none, false, false⟩)],
          [("r", "r")]⟩ "r" 9
      = (⟨[("r", ⟨"r", [("r", ⟨.completed, none, some 7, []⟩)], [], none, false, false⟩)],
          [("r", "r")]⟩, [])
    ∧ (cancelNode (cancelNode
        ⟨[("r", ⟨"r", [("r", ⟨.pending, none, none, []⟩)], ["r"], none, false, false⟩)],
          [("r", "r")]⟩ "r" 3).1 "r" 5).1
      = (cancelNode
        ⟨[("r", ⟨"r", [("r", ⟨.pending, none, none, []⟩)], ["r"], none, false, false⟩)],
          [("r", "r")]⟩ "r" 3).1 :=
  ⟨c5_cancel_node_terminal_noop.1 _ "r" 9 "r"
      ⟨"r", [("r", ⟨.completed, none, some 7, []⟩)], [], none, false, false⟩
      ⟨.completed, none, some 7, []⟩ rfl rfl rfl (Or.inl rfl),
    c5_cancel_node_terminal_noop.2 _ "r" 3 5⟩

/-! ## C3 — cancel_tree leaves no PENDING or IN_PROGRESS node -/

/-- Reading a node back after markError. -/
lemma markError_get (t : MessageTree) (nid j : String) (msg : String) :
    (t.markError nid msg).get_node j
      = if j = nid
        then (t.get_node j).map (fun n =>
          { n with state := .error, error_message := some msg })
        else t.get_node j := by
  simp only [MessageTree.markError, MessageTree.updateNode, MessageTree.get_node]
  rw [alistGet_update]

/-- markError keeps the queue. -/
lemma markError_queue (t : MessageTree) (nid : String) (msg : String) :
    (t.markError nid msg).queue = t.queue := rfl

/-- Reading a node back after the drain loop: queued ids that name a
node come back marked, everything else is untouched. -/
lemma drainLoop_get (q : List String) (t : MessageTree) (j : String) :
    ((drainLoop t q).1).get_node j
      = if j ∈ q ∧ (t.get_node j).isSome = true
        then (t.get_node j).map (fun n =>
          { n with state := .error, error_message := some "Cancelled by user" })
        else t.get_node j := by
  induction q generalizing t with
  | nil => simp [drainLoop]
  | cons nid rest ih =>
      rcases h : t.get_node nid with _ | n
      · simp only [drainLoop, h]
        rw [ih]
        by_cases hj : j = nid
        · subst hj
          simp [h]
        · simp [hj]
      · simp only [drainLoop, h]
        rw [ih]
        by_cases hj : j = nid
        · subst hj
          rw [markError_get, if_pos rfl, h]
          by_cases hmem : j ∈ rest <;> simp [hmem, h]
        · rw [markError_get, if_neg hj]
          simp [hj]

/-- Membership in the drain loop's returned ids. -/
lemma drainLoop_mem (q : List String) (t : MessageTree) (j : String) :
    j ∈ (drainLoop t q).2 ↔ j ∈ q ∧ (t.get_node j).isSome = true := by
  induction q generalizing t with
  | nil => simp [drainLoop]
  | cons nid rest ih =>
      rcases h : t.get_node nid with _ | n
      · simp only [drainLoop, h]
        rw [ih]
        by_cases hj : j = nid
        · subst hj
          simp [h]
        · simp [hj]
      · simp only [drainLoop, h, List.mem_cons]
        rw [ih, markError_get]
        by_cases hj : j = nid
        · subst hj
          simp [h]
        · simp [hj]

/-- drain_queue_and_mark_cancelled, read back per node. -/
lemma drain_get (t : MessageTree) (j : String) :
    ((t.drain_queue_and_mark_cancelled).1).get_node j
      = if j ∈ t.queue ∧ (t.get_node j).isSome = true
        then (t.get_node j).map (fun n =>
          { n with state := .error, error_message := some "Cancelled by user" })
        else t.get_node j := by
  simp only [MessageTree.drain_queue_and_mark_cancelled]
  rw [drainLoop_get]
  rfl

/-- drain_queue_and_mark_cancelled, returned ids. -/
lemma drain_mem (t : MessageTree) (j : String) :
    j ∈ ((t.drain_queue_and_mark_cancelled).2)
      ↔ j ∈ t.queue ∧ (t.get_node j).isSome = true := by
  simp only [MessageTree.drain_queue_and_mark_cancelled]
  rw [drainLoop_mem]
  rfl

/-- Reading a node back after the stale cleanup pass. -/
lemma cleanupStaleNodes_get (cs : List String)
    (nodes : List (String × MessageNode)) (j : String) :
    alistGet (cleanupStaleNodes cs nodes) j
      = (alistGet nodes j).map (fun n =>
          if (n.state = .pending ∨ n.state = .in_progress) ∧ j ∉ cs
          then { n with state := .error,
                        error_message := some "Stale task cleaned up" }
          else n) := by
  induction nodes with
  | nil => simp [cleanupStaleNodes, alistGet]
  | cons p rest ih =>
      obtain ⟨a, n⟩ := p
      by_cases haj : a = j
      · subst haj
        by_cases hcond : (n.state = .pending ∨ n.state = .in_progress) ∧ a ∉ cs
        · simp [cleanupStaleNodes, hcond, alistGet]
        · simp [cleanupStaleNodes, hcond, alistGet]
      · by_cases hcond : (n.state = .pending ∨ n.state = .in_progress) ∧ a ∉ cs
        · simp [cleanupStaleNodes, hcond, alistGet, haj, ih]
        · simp [cleanupStaleNodes, hcond, alistGet, haj, ih]

/-- When a live task guards a live current node, step 1 marks exactly
that node. -/
lemma cancelTreeStep1_marks (t : MessageTree) (cid : String) (n : MessageNode)
    (hct : t.current_task = true) (hcn : t.current_node_id = some cid)
    (hg : t.get_node cid = some n)
    (hc : n.state ≠ .completed) (he : n.state ≠ .error) :
    cancelTreeStep1 t = (t.markError cid "Cancelled by user", [cid]) := by
  simp [cancelTreeStep1, MessageTree.cancel_current_task, hct, hcn, hg, hc, he]

/-- In every other situation step 1 does nothing. -/
lemma cancelTreeStep1_noop (t : MessageTree)
    (h : t.current_task = false
      ∨ t.current_node_id = none
      ∨ (∃ cid, t.current_node_id = some cid ∧ t.get_node cid = none)
      ∨ (∃ cid n, t.current_node_id = some cid ∧ t.get_node cid = some n
          ∧ ¬(n.state ≠ .completed ∧ n.state ≠ .error))) :
    cancelTreeStep1 t = (t, []) := by
  rcases h with h | h | ⟨cid, h1, h2⟩ | ⟨cid, n, h1, h2, h3⟩
  · simp [cancelTreeStep1, MessageTree.cancel_current_task, h]
  · simp [cancelTreeStep1, MessageTree.cancel_current_task, h]
  · simp [cancelTreeStep1, MessageTree.cancel_current_task, h1, h2]
  · simp [cancelTreeStep1, MessageTree.cancel_current_task, h1, h2, h3]

/-- Case split on the two step-1 outcomes. -/
lemma cancelTreeStep1_cases (t : MessageTree) :
    cancelTreeStep1 t = (t, [])
      ∨ ∃ cid n, t.current_task = true ∧ t.current_node_id = some cid
          ∧ t.get_node cid = some n ∧ n.state ≠ .completed ∧ n.state ≠ .error
          ∧ cancelTreeStep1 t = (t.markError cid "Cancelled by user", [cid]) := by
  cases hct : t.current_task
  · exact Or.inl (cancelTreeStep1_noop t (Or.inl hct))
  · rcases hcn : t.current_node_id with _ | cid
    · exact Or.inl (cancelTreeStep1_noop t (Or.inr (Or.inl hcn)))
    · rcases hg : t.get_node cid with _ | n
      · exact Or.inl (cancelTreeStep1_noop t (Or.inr (Or.inr (Or.inl ⟨cid, hcn, hg⟩))))
      · by_cases hterm : n.state ≠ .completed ∧ n.state ≠ .error
        · exact Or.inr ⟨cid, n, rfl, rfl, hg, hterm.1, hterm.2,
            cancelTreeStep1_marks t cid n hct hcn hg hterm.1 hterm.2⟩
        · exact Or.inl (cancelTreeStep1_noop t
            (Or.inr (Or.inr (Or.inr ⟨cid, n, hcn, hg, hterm⟩))))

/-- Step 1, read back per node: exactly the returned ids are marked
"Cancelled by user". -/
lemma cancelTreeStep1_get (t : MessageTree) (j : String) :
    ((cancelTreeStep1 t).1).get_node j
      = if j ∈ (cancelTreeStep1 t).2
        then (t.get_node j).map (fun n =>
          { n with state := .error, error_message := some "Cancelled by user" })
        else t.get_node j := by
  rcases cancelTreeStep1_cases t with h | ⟨cid, n, _, _, hg, _, _, h⟩
  · rw [h]; simp
  · rw [h, markError_get]
    by_cases hj : j = cid
    · subst hj; simp
    · simp [hj]

/-- Ids returned by step 1 name existing nodes. -/
lemma cancelTreeStep1_mem (t : MessageTree) (j : String)
    (h : j ∈ (cancelTreeStep1 t).2) : (t.get_node j).isSome = true := by
  rcases cancelTreeStep1_cases t with he | ⟨cid, n, _, _, hg, _, _, he⟩
  · rw [he] at h; simp at h
  · rw [he] at h
    simp at h
    subst h
    simp [hg]

/-- Step 1 keeps the queue. -/
lemma cancelTreeStep1_queue (t : MessageTree) :
    ((cancelTreeStep1 t).1).queue = t.queue := by
  rcases cancelTreeStep1_cases t with h | ⟨cid, n, _, _, _, _, _, h⟩
  · rw [h]
  · rw [h]
    rfl

/-- C3: after cancel_tree, no node of the tree is PENDING or
IN_PROGRESS; a live current node guarded by a live task and every
queued node end ERROR "Cancelled by user"; every other leftover
PENDING/IN_PROGRESS node ends ERROR "Stale task cleaned up"; and the
tree's processing state is reset. -/
theorem c3_cancel_tree (r : TreeRepoState) (root_id : String) (t : MessageTree)
    (h : alistGet r.trees root_id = some t) :
    alistGet ((cancelTreeM r root_id).1).trees root_id = some (t.cancelTree).1
      ∧ (cancelTreeM r root_id).2 = (t.cancelTree).2
      ∧ (∀ j n, ((t.cancelTree).1).get_node j = some n →
          n.state ≠ .pending ∧ n.state ≠ .in_progress)
      ∧ (∀ cid n, t.current_task = true → t.current_node_id = some cid →
          t.get_node cid = some n → n.state ≠ .completed → n.state ≠ .error →
          ∃ n', ((t.cancelTree).1).get_node cid = some n'
            ∧ n'.state = .error ∧ n'.error_message = some "Cancelled by user")
      ∧ (∀ j n, j ∈ t.queue → t.get_node j = some n →
          ∃ n', ((t.cancelTree).1).get_node j = some n'
            ∧ n'.state = .error ∧ n'.error_message = some "Cancelled by user")
      ∧ (∀ j n, t.get_node j = some n →
          (n.state = .pending ∨ n.state = .in_progress) → j ∉ (t.cancelTree).2 →
          ∃ n', ((t.cancelTree).1).get_node j = some n'
            ∧ n'.state = .error ∧ n'.error_message = some "Stale task cleaned up")
      ∧ ((t.cancelTree).1).is_processing = false
      ∧ ((t.cancelTree).1).current_node_id = none := by
  set s1 := cancelTreeStep1 t with hs1eq
  set d := s1.1.drain_queue_and_mark_cancelled with hdeq
  have hres1 : (t.cancelTree).1
      = (d.1.cleanupStale (s1.2 ++ d.2)).reset_processing_state := rfl
  have hres2 : (t.cancelTree).2 = s1.2 ++ d.2 := rfl
  have hs1get : ∀ j, s1.1.get_node j
      = if j ∈ s1.2 then (t.get_node j).map (fun n =>
          { n with state := .error, error_message := some "Cancelled by user" })
        else t.get_node j := fun j => cancelTreeStep1_get t j
  have hdget : ∀ j, d.1.get_node j
      = if j ∈ s1.1.queue ∧ (s1.1.get_node j).isSome = true
        then (s1.1.get_node j).map (fun n =>
          { n with state := .error, error_message := some "Cancelled by user" })
        else s1.1.get_node j := fun j => drain_get s1.1 j
  have hdmem : ∀ j, j ∈ d.2
      ↔ j ∈ s1.1.queue ∧ (s1.1.get_node j).isSome = true :=
    fun j => drain_mem s1.1 j
  have hq : s1.1.queue = t.queue := cancelTreeStep1_queue t
  have hmark : ∀ j, j ∈ s1.2 ++ d.2 → ∃ n', d.1.get_node j = some n'
      ∧ n'.state = .error ∧ n'.error_message = some "Cancelled by user" := by
    intro j hj
    rcases List.mem_append.mp hj with hj1 | hj2
    · have hsome := cancelTreeStep1_mem t j hj1
      rcases Option.isSome_iff_exists.mp hsome with ⟨n0, hn0⟩
      have e1 : s1.1.get_node j
          = some { n0 with state := .error,
                           error_message := some "Cancelled by user" } := by
        rw [hs1get, if_pos hj1, hn0]
        rfl
      rw [hdget]
      by_cases hcond : j ∈ s1.1.queue ∧ (s1.1.get_node j).isSome = true
      · rw [if_pos hcond, e1]
        exact ⟨_, rfl, rfl, rfl⟩
      · rw [if_neg hcond, e1]
        exact ⟨_, rfl, rfl, rfl⟩
    · have hcond := (hdmem j).mp hj2
      rcases Option.isSome_iff_exists.mp hcond.2 with ⟨n1, hn1⟩
      rw [hdget, if_pos hcond, hn1]
      exact ⟨_, rfl, rfl, rfl⟩
  have huntouched : ∀ j, j ∉ s1.2 ++ d.2 → d.1.get_node j = t.get_node j := by
    intro j hj
    have hj1 : j ∉ s1.2 := fun hx => hj (List.mem_append.mpr (Or.inl hx))
    have hj2 : j ∉ d.2 := fun hx => hj (List.mem_append.mpr (Or.inr hx))
    have hcond : ¬(j ∈ s1.1.queue ∧ (s1.1.get_node j).isSome = true) :=
      fun hc => hj2 ((hdmem j).mpr hc)
    rw [hdget, if_neg hcond, hs1get, if_neg hj1]
  have hfin : ∀ j, ((t.cancelTree).1).get_node j
      = (d.1.get_node j).map (fun n =>
          if (n.state = .pending ∨ n.state = .in_progress) ∧ j ∉ s1.2 ++ d.2
          then { n with state := .error,
                        error_message := some "Stale task cleaned up" }
          else n) := by
    intro j
    rw [hres1]
    exact cleanupStaleNodes_get (s1.2 ++ d.2) d.1.nodes j
  refine ⟨?_, ?_, ?_, ?_, ?_, ?_, rfl, rfl⟩
  · simp only [cancelTreeM, h, TreeRepoState.setTree]
    rw [alistGet_update, if_pos rfl, h]
    rfl
  · simp [cancelTreeM, h]
  · intro j n hjn
    rw [hfin j] at hjn
    rcases hn3 : d.1.get_node j with _ | n3
    · rw [hn3] at hjn
      simp at hjn
    · rw [hn3] at hjn
      simp only [Option.map_some'] at hjn
      have hn := Option.some.inj hjn
      by_cases hcond : (n3.state = .pending ∨ n3.state = .in_progress)
          ∧ j ∉ s1.2 ++ d.2
      · rw [if_pos hcond] at hn
        rw [← hn]
        exact ⟨by simp, by simp⟩
      · rw [if_neg hcond] at hn
        rcases not_and_or.mp hcond with hA | hB
        · rw [← hn]
          push_neg at hA
          exact hA
        · have hjin : j ∈ s1.2 ++ d.2 := not_not.mp hB
          rcases hmark j hjin with ⟨n', he', hs', _⟩
          rw [hn3] at he'
          have hn3n' : n3 = n' := Option.some.inj he'
          have hstate : n.state = .error := by
            rw [← hn, hn3n', hs']
          rw [hstate]
          exact ⟨by simp, by simp⟩
  · intro cid n hct hcn hg hc he
    have hs1m : s1 = (t.markError cid "Cancelled by user", [cid]) := by
      rw [hs1eq]
      exact cancelTreeStep1_marks t cid n hct hcn hg hc he
    have hmem : cid ∈ s1.2 ++ d.2 := by
      refine List.mem_append.mpr (Or.inl ?_)
      rw [hs1m]
      simp
    rcases hmark cid hmem with ⟨n', he', hs', hm'⟩
    have hcond : ¬((n'.state = .pending ∨ n'.state = .in_progress)
        ∧ cid ∉ s1.2 ++ d.2) := by
      simp [hs']
    rw [hfin cid, he', Option.map_some', if_neg hcond]
    exact ⟨n', rfl, hs', hm'⟩
  · intro j n hjq hjn
    have hqj : j ∈ s1.1.queue := by rw [hq]; exact hjq
    have hsome : (s1.1.get_node j).isSome = true := by
      rw [hs1get]
      by_cases hj1 : j ∈ s1.2 <;> simp [hj1, hjn]
    have hmem : j ∈ s1.2 ++ d.2 :=
      List.mem_append.mpr (Or.inr ((hdmem j).mpr ⟨hqj, hsome⟩))
    rcases hmark j hmem with ⟨n', he', hs', hm'⟩
    have hcond : ¬((n'.state = .pending ∨ n'.state = .in_progress)
        ∧ j ∉ s1.2 ++ d.2) := by
      simp [hs']
    rw [hfin j, he', Option.map_some', if_neg hcond]
    exact ⟨n', rfl, hs', hm'⟩
  · intro j n hjn hpi hnotin
    rw [hres2] at hnotin
    have hun := huntouched j hnotin
    rw [hfin j, hun, hjn, Option.map_some', if_pos ⟨hpi, hnotin⟩]
    exact ⟨_, rfl, rfl, rfl⟩

/-- C3 witness: a tree with a running current node, a queued node and
a stale pending node, cancelled through the repository; the processing
state is reset and the cancelled ids are reported. -/
theorem c3_cancel_tree_witness :
    ((MessageTree.cancelTree
        ⟨"r", [("r", ⟨.completed, none, none, ["c", "q", "s"]⟩),
               ("c", ⟨.in_progress, none, none, []⟩),
               ("q", ⟨.pending, none, none, []⟩),
               ("s", ⟨.pending, none, none, []⟩)],
          ["q"], some "c", true, true⟩).1).is_processing = false
      ∧ ((MessageTree.cancelTree
        ⟨"r", [("r", ⟨.completed, none, none, ["c", "q", "s"]⟩),
               ("c", ⟨.in_progress, none, none, []⟩),
               ("q", ⟨.pending, none, none, []⟩),
               ("s", ⟨.pending, none, none, []⟩)],
          ["q"], some "c", true, true⟩).1).current_node_id = none
      ∧ (cancelTreeM
          ⟨[("r", ⟨"r", [("r", ⟨.completed, none, none, ["c", "q", "s"]⟩),
                         ("c", ⟨.in_progress, none, none, []⟩),
                         ("q", ⟨.pending, none, none, []⟩),
                         ("s", ⟨.pending, none, none, []⟩)],
                    ["q"], some "c", true, true⟩)], [("r", "r")]⟩ "r").2
        = (MessageTree.cancelTree
            ⟨"r", [("r", ⟨.completed, none, none, ["c", "q", "s"]⟩),
                   ("c", ⟨.in_progress, none, none, []⟩),
                   ("q", ⟨.pending, none, none, []⟩),
                   ("s", ⟨.pending, none, none, []⟩)],
              ["q"], some "c", true, true⟩).2 :=
  ⟨(c3_cancel_tree
      ⟨[("r", ⟨"r", [("r", ⟨.completed, none, none, ["c", "q", "s"]⟩),
                     ("c", ⟨.in_progress, none, none, []⟩),
                     ("q", ⟨.pending, none, none, []⟩),
                     ("s", ⟨.pending, none, none, []⟩)],
                ["q"], some "c", true, true⟩)], [("r", "r")]⟩ "r" _ rfl).2.2.2.2.2.2.1,
    (c3_cancel_tree
      ⟨[("r", ⟨"r", [("r", ⟨.completed, none, none, ["c", "q", "s"]⟩),
                     ("c", ⟨.in_progress, none, none, []⟩),
                     ("q", ⟨.pending, none, none, []⟩),
                     ("s", ⟨.pending, none, none, []⟩)],
                ["q"], some "c", true, true⟩)], [("r", "r")]⟩ "r" _ rfl).2.2.2.2.2.2.2,
    (c3_cancel_tree
      ⟨[("r", ⟨"r", [("r", ⟨.completed, none, none, ["c", "q", "s"]⟩),
                     ("c", ⟨.in_progress, none, none, []⟩),
                     ("q", ⟨.pending, none, none, []⟩),
                     ("s", ⟨.pending, none, none, []⟩)],
                ["q"], some "c", true, true⟩)], [("r", "r")]⟩ "r" _ rfl).2.1⟩

/-! ## C7 — mark_node_error propagates to transitively-pending children -/

/-- A successful association-list lookup is a list member. -/
lemma alistGet_mem {α : Type} (l : List (String × α)) (k : String) (v : α)
    (h : alistGet l k = some v) : (k, v) ∈ l := by
  induction l with
  | nil => simp [alistGet] at h
  | cons p rest ih =>
      obtain ⟨a, b⟩ := p
      by_cases hak : a = k
      · subst hak
        simp [alistGet] at h
        simp [h]
      · simp [alistGet, hak] at h
        simp [ih h]

/-- alistUpdate keeps the length of the list. -/
lemma alistUpdate_length {α : Type} (l : List (String × α)) (k : String)
    (f : α → α) : (alistUpdate l k f).length = l.length := by
  induction l with
  | nil => rfl
  | cons p rest ih =>
      obtain ⟨a, b⟩ := p
      by_cases hak : a = k <;> simp [alistUpdate, hak, ih]

/-- Reading a node back after update_state with an explicit message. -/
lemma update_state_get_some (t : MessageTree) (nid j : String)
    (st : MessageState) (m : String) :
    (t.update_state nid st (some m)).get_node j
      = if j = nid
        then (t.get_node j).map (fun n =>
          { n with state := st, error_message := some m })
        else t.get_node j := by
  simp only [MessageTree.update_state, MessageTree.updateNode, MessageTree.get_node]
  rw [alistGet_update]
  rfl

/-- flatMap only depends on the function's values on members. -/
lemma flatMap_congr_mem {α β : Type} {l : List α} {f g : α → List β}
    (h : ∀ x ∈ l, f x = g x) : l.flatMap f = l.flatMap g := by
  induction l with
  | nil => rfl
  | cons a rest ih =>
      simp only [List.flatMap_cons]
      rw [h a (by simp), ih (fun x hx => h x (by simp [hx]))]

/-- A pending descendant sits strictly below its ancestor in any rank
function that descends along children. -/
lemma IsPendingDescendant.rank_lt (t : MessageTree) (rank : String → Nat)
    (hrank : ∀ p np c, t.get_node p = some np → c ∈ np.children_ids →
      rank c < rank p) :
    ∀ p d, IsPendingDescendant t p d → rank d < rank p := by
  intro p d h
  induction h with
  | base h1 h2 h3 h4 => exact hrank _ _ _ h1 h2
  | step h1 h2 h3 h4 h5 ih => exact lt_trans ih (hrank _ _ _ h1 h2)

/-- A pending descendant names an existing PENDING node. -/
lemma IsPendingDescendant.pending_node (t : MessageTree) :
    ∀ p d, IsPendingDescendant t p d →
      ∃ nc, t.get_node d = some nc ∧ nc.state = .pending := by
  intro p d h
  induction h with
  | base h1 h2 h3 h4 => exact ⟨_, h3, h4⟩
  | step h1 h2 h3 h4 h5 ih => exact ih

/-- With enough fuel, the recursive scan of get_pending_children
computes exactly the transitively-pending descendants. -/
lemma pendingChildren_iff (t : MessageTree) (rank : String → Nat)
    (hrank : ∀ p np c, t.get_node p = some np → c ∈ np.children_ids →
      rank c < rank p) :
    ∀ (fuel : Nat) (nid d : String), rank nid < fuel →
      (d ∈ pendingChildren t fuel nid ↔ IsPendingDescendant t nid d) := by
  intro fuel
  induction fuel with
  | zero => intro nid d h; exact absurd h (Nat.not_lt_zero _)
  | succ fuel ih =>
      intro nid d h
      rcases hn : t.get_node nid with _ | np
      · simp only [pendingChildren, hn]
        constructor
        · intro hd; simp at hd
        · intro hd
          cases hd with
          | base h1 h2 h3 h4 => rw [hn] at h1; exact absurd h1 (by simp)
          | step h1 h2 h3 h4 h5 => rw [hn] at h1; exact absurd h1 (by simp)
      · simp only [pendingChildren, hn, List.mem_flatMap]
        constructor
        · rintro ⟨cid, hcmem, hd⟩
          rcases hc : t.get_node cid with _ | nc
          · rw [hc] at hd; simp at hd
          · simp only [hc] at hd
            by_cases hp : nc.state = .pending
            · rw [if_pos hp] at hd
              rcases List.mem_cons.mp hd with rfl | hd'
              · exact IsPendingDescendant.base hn hcmem hc hp
              · have hrc : rank cid < fuel :=
                  lt_of_lt_of_le (hrank nid np cid hn hcmem) (Nat.lt_succ_iff.mp h)
                exact IsPendingDescendant.step hn hcmem hc hp ((ih cid d hrc).mp hd')
            · rw [if_neg hp] at hd; simp at hd
        · intro hd
          cases hd with
          | base h1 h2 h3 h4 =>
              rename_i np' nc
              rw [hn] at h1
              obtain rfl : np = np' := Option.some.inj h1
              refine ⟨d, h2, ?_⟩
              simp only [h3, if_pos h4]
              exact List.mem_cons_self _ _
          | step h1 h2 h3 h4 h5 =>
              rename_i c np' nc
              rw [hn] at h1
              obtain rfl : np = np' := Option.some.inj h1
              refine ⟨c, h2, ?_⟩
              simp only [h3, if_pos h4]
              have hrc : rank c < fuel :=
                lt_of_lt_of_le (hrank nid np c hn h2) (Nat.lt_succ_iff.mp h)
              exact List.mem_cons.mpr (Or.inr ((ih c d hrc).mpr h5))

/-- Marking the scanned node itself does not change the scan: the
start node's state is never read and, under a descending rank, the
start node is never reachable as a child. -/
lemma pendingChildren_update_state (t : MessageTree) (rank : String → Nat)
    (hrank : ∀ p np c, t.get_node p = some np → c ∈ np.children_ids →
      rank c < rank p)
    (nid : String) (st : MessageState) (m : String) :
    ∀ (fuel : Nat) (start : String), (start = nid ∨ rank start < rank nid) →
      pendingChildren (t.update_state nid st (some m)) fuel start
        = pendingChildren t fuel start := by
  intro fuel
  induction fuel with
  | zero => intro start hs; rfl
  | succ fuel ih =>
      intro start hs
      rcases hn : t.get_node start with _ | np
      · have hn' : (t.update_state nid st (some m)).get_node start = none := by
          rw [update_state_get_some]
          split <;> simp [hn]
        simp only [pendingChildren, hn, hn']
      · have hchildren : ∃ np', (t.update_state nid st (some m)).get_node start
            = some np' ∧ np'.children_ids = np.children_ids := by
          rw [update_state_get_some]
          by_cases hx : start = nid
          · rw [if_pos hx, hn]
            exact ⟨_, rfl, rfl⟩
          · rw [if_neg hx, hn]
            exact ⟨np, rfl, rfl⟩
        rcases hchildren with ⟨np', hn', hch⟩
        simp only [pendingChildren, hn, hn', hch]
        refine flatMap_congr_mem ?_
        intro cid hcid
        have hrcid : rank cid < rank nid := by
          rcases hs with rfl | hlt
          · exact hrank _ _ _ hn hcid
          · exact lt_trans (hrank _ _ _ hn hcid) hlt
        have hcid_ne : cid ≠ nid := by
          intro hcontr
          rw [hcontr] at hrcid
          exact lt_irrefl _ hrcid
        have hcget : (t.update_state nid st (some m)).get_node cid
            = t.get_node cid := by
          rw [update_state_get_some, if_neg hcid_ne]
        rw [hcget]
        rcases hc : t.get_node cid with _ | nc
        · rfl
        · by_cases hp : nc.state = .pending
          · simp only [if_pos hp]
            rw [ih cid (Or.inr hrcid)]
          · simp only [if_neg hp]

/-- Reading a node back after the propagation fold. -/
lemma foldl_update_state_get (m : String) :
    ∀ (pcs : List String) (t : MessageTree) (j : String),
      ((pcs.foldl (fun acc cid =>
          acc.update_state cid .error (some m)) t)).get_node j
        = if j ∈ pcs
          then (t.get_node j).map (fun n =>
            { n with state := .error, error_message := some m })
          else t.get_node j := by
  intro pcs
  induction pcs with
  | nil => intro t j; simp
  | cons a rest ih =>
      intro t j
      simp only [List.foldl_cons]
      rw [ih]
      by_cases hj : j = a
      · subst hj
        rw [update_state_get_some, if_pos rfl]
        by_cases hm : j ∈ rest
        · simp only [hm, if_true, List.mem_cons, true_or, if_pos]
          cases t.get_node j <;> rfl
        · simp [hm]
      · rw [update_state_get_some, if_neg hj]
        by_cases hm : j ∈ rest
        · simp [hm, hj]
        · simp [hm, hj]

/-- C7: mark_node_error with propagation marks the node ERROR with the
message, marks exactly the transitively-PENDING descendants ERROR with
"Parent failed: <message>", leaves every other node untouched, and
returns the node followed by those descendants. -/
theorem c7_mark_node_error_propagates
    (r : TreeRepoState) (nid msg root_id : String)
    (t : MessageTree) (n : MessageNode) (rank : String → Nat)
    (h1 : alistGet r.node_to_tree nid = some root_id)
    (h2 : alistGet r.trees root_id = some t)
    (h3 : t.get_node nid = some n)
    (hrank : ∀ pr ∈ t.nodes, ∀ c ∈ pr.2.children_ids, rank c < rank pr.1)
    (hfuel : rank nid < t.nodes.length) :
    (markNodeError r nid msg true).2
        = nid :: pendingChildren t t.nodes.length nid
      ∧ (∀ d, d ∈ pendingChildren t t.nodes.length nid
          ↔ IsPendingDescendant t nid d)
      ∧ ∃ t2, alistGet ((markNodeError r nid msg true).1).trees root_id = some t2
          ∧ t2.get_node nid
            = some { n with state := .error, error_message := some msg }
          ∧ (∀ d nd, IsPendingDescendant t nid d → t.get_node d = some nd →
              t2.get_node d
                = some { nd with
                         state := .error,
                         error_message := some ("Parent failed: " ++ msg) })
          ∧ (∀ j, j ≠ nid → ¬IsPendingDescendant t nid j →
              t2.get_node j = t.get_node j) := by
  have hrank' : ∀ p np c, t.get_node p = some np → c ∈ np.children_ids →
      rank c < rank p := by
    intro p np c hg hc
    exact hrank (p, np) (alistGet_mem t.nodes p np hg) c hc
  have hiff : ∀ d, d ∈ pendingChildren t t.nodes.length nid
      ↔ IsPendingDescendant t nid d :=
    fun d => pendingChildren_iff t rank hrank' t.nodes.length nid d hfuel
  have e2 : alistGet (alistUpdate r.trees root_id
      (fun _ => t.update_state nid .error (some msg))) root_id
      = some (t.update_state nid .error (some msg)) := by
    rw [alistGet_update, if_pos rfl, h2]
    rfl
  have hlen : (t.update_state nid .error (some msg)).nodes.length
      = t.nodes.length :=
    alistUpdate_length _ _ _
  have hpcs : (TreeRepoState.setTree r root_id
      (t.update_state nid .error (some msg))).get_pending_children nid
      = pendingChildren t t.nodes.length nid := by
    simp only [TreeRepoState.get_pending_children, TreeRepoState.get_tree_for_node,
      TreeRepoState.setTree, h1, e2]
    rw [hlen]
    exact pendingChildren_update_state t rank hrank' nid .error msg
      t.nodes.length nid (Or.inl rfl)
  have hnotself : nid ∉ pendingChildren t t.nodes.length nid := by
    intro hin
    exact lt_irrefl (rank nid)
      (IsPendingDescendant.rank_lt t rank hrank' nid nid ((hiff nid).mp hin))
  refine ⟨?_, hiff, ?_⟩
  · simp only [markNodeError, h1, h2, h3, eq_self_iff_true, if_true, hpcs]
    simp
  · refine ⟨(pendingChildren t t.nodes.length nid).foldl
      (fun acc cid => acc.update_state cid .error
        (some ("Parent failed: " ++ msg))) (t.update_state nid .error (some msg)),
      ?_, ?_, ?_, ?_⟩
    · simp only [markNodeError, h1, h2, h3, eq_self_iff_true, if_true, hpcs]
      simp only [TreeRepoState.setTree]
      rw [alistGet_update, if_pos rfl, h2]
      rfl
    · rw [foldl_update_state_get, if_neg hnotself, update_state_get_some,
        if_pos rfl, h3]
      rfl
    · intro d nd hd hnd
      have hdmem : d ∈ pendingChildren t t.nodes.length nid := (hiff d).mpr hd
      have hdne : d ≠ nid := by
        intro hcontr
        rw [hcontr] at hd
        exact lt_irrefl (rank nid)
          (IsPendingDescendant.rank_lt t rank hrank' nid nid hd)
      rw [foldl_update_state_get, if_pos hdmem, update_state_get_some,
        if_neg hdne, hnd]
      rfl
    · intro j hjne hjnd
      have hjmem : j ∉ pendingChildren t t.nodes.length nid :=
        fun hin => hjnd ((hiff j).mp hin)
      rw [foldl_update_state_get, if_neg hjmem, update_state_get_some,
        if_neg hjne]

/-- C7 witness: an in-progress node with a pending chain a→b and a
completed child c shielding a pending d; marking it propagates to a
and b only, in order. -/
theorem c7_mark_node_error_propagates_witness :
    (markNodeError
        ⟨[("r", ⟨"r",
            [("n", ⟨.in_progress, none, none, ["a", "c"]⟩),
             ("a", ⟨.pending, none, none, ["b"]⟩),
             ("b", ⟨.pending, none, none, []⟩),
             ("c", ⟨.completed, none, none, ["d"]⟩),
             ("d", ⟨.pending, none, none, []⟩)],
            [], none, false, false⟩)], [("n", "r")]⟩ "n" "boom" true).2
      = ["n", "a", "b"] :=
  ((c7_mark_node_error_propagates
      ⟨[("r", ⟨"r",
          [("n", ⟨.in_progress, none, none, ["a", "c"]⟩),
           ("a", ⟨.pending, none, none, ["b"]⟩),
           ("b", ⟨.pending, none, none, []⟩),
           ("c", ⟨.completed, none, none, ["d"]⟩),
           ("d", ⟨.pending, none, none, []⟩)],
          [], none, false, false⟩)], [("n", "r")]⟩
      "n" "boom" "r"
      ⟨"r",
        [("n", ⟨.in_progress, none, none, ["a", "c"]⟩),
         ("a", ⟨.pending, none, none, ["b"]⟩),
         ("b", ⟨.pending, none, none, []⟩),
         ("c", ⟨.completed, none, none, ["d"]⟩),
         ("d", ⟨.pending, none, none, []⟩)],
        [], none, false, false⟩
      ⟨.in_progress, none, none, ["a", "c"]⟩
      (fun s => if s = "n" then 3 else if s = "a" then 2 else if s = "c" then 2 else 1)
      rfl rfl rfl (by decide) (by decide)).1).trans (by decide)
